import Mathlib

/-!
Verification of the per-pipeline streaming engine of the ESP32 TFT stream
server (`pipeline.py`, with the earlier draft in `server.py`).

Shallow embedding conventions:
* images are a width, a height and a pixel function returning an RGB triple
  of natural channel values (`np.uint8` contents);
* the `numpy` int16 diff arithmetic is carried out in `ℤ` (the int16 range is
  never exceeded: per-pixel sums of absolute channel differences are ≤ 765);
* Python floats (thresholds, processing times, FPS arithmetic, dither error
  buffers) are idealised as `ℚ`; the gamma/white-balance kernel, whose
  exponentiation is genuinely real-valued, is idealised over `ℝ`;
* byte strings are `List ℕ` with every element `< 256`.
-/

/-! ## RGB565 packing (`rgb_to_rgb565`, `_apply_dithering_to_rgb565_bytes`) -/

/-- Source `pipeline.py` line 27 (`rgb_to_rgb565`, also `server.py`):
`((r & 0xF8) << 8) | ((g & 0xFC) << 3) | (b >> 3)`. -/
def rgb_to_rgb565 (r g b : ℕ) : ℕ :=
  ((r &&& 0xF8) <<< 8) ||| ((g &&& 0xFC) <<< 3) ||| (b >>> 3)

/-- Source `pipeline.py` lines 225-227 (`_apply_dithering_to_rgb565_bytes`):
`((r >> 3) << 11) | ((g >> 2) << 5) | (b >> 3)` on the clipped uint8 pixels. -/
def rgb565OfPixel (r g b : ℕ) : ℕ :=
  ((r >>> 3) <<< 11) ||| ((g >>> 2) <<< 5) ||| (b >>> 3)

/-- Big-endian two-byte serialisation of a 16-bit value (`struct.pack(!H, n)`,
and `astype(>H)` for pixel words). -/
def u16be (n : ℕ) : List ℕ := [n / 256 % 256, n % 256]

/-- Big-endian four-byte serialisation of a 32-bit value (`struct.pack(!I, n)`). -/
def u32be (n : ℕ) : List ℕ :=
  [n / 2 ^ 24 % 256, n / 2 ^ 16 % 256, n / 2 ^ 8 % 256, n % 256]

/-- Source `pipeline.py` lines 310-318 (`_pack_update_packet`):
`struct.pack(!HHHH I, x, y, w, h, len(data)) + data`. -/
def packUpdatePacket (x y w h : ℕ) (data : List ℕ) : List ℕ :=
  u16be x ++ u16be y ++ u16be w ++ u16be h ++ u32be data.length ++ data

/-- Source `pipeline.py` lines 222-229: the payload bytes of a `w×h` chunk after
dithering: per pixel in row-major order, the RGB565 word serialised big-endian
(`rgb565_val.astype(>H).tobytes()`).  `pix y x` is the clipped uint8 pixel. -/
def rgb565Bytes (w h : ℕ) (pix : ℕ → ℕ → ℕ × ℕ × ℕ) : List ℕ :=
  (List.range h).flatMap fun y =>
    (List.range w).flatMap fun x =>
      u16be (rgb565OfPixel (pix y x).1 (pix y x).2.1 (pix y x).2.2)

/-! ## Images and the dirty-rect detector (`_find_dirty_rects`) -/

/-- A 24-bit RGB image: the model of a PIL `Image` in mode `RGB`. -/
structure Img where
  width : ℕ
  height : ℕ
  pix : ℕ → ℕ → ℕ × ℕ × ℕ

/-- Per-pixel L1 channel distance, `np.sum(np.abs(arr_curr - arr_prev), axis=2)`
on the `int16` arrays (`pipeline.py` line 294); `ℤ` is wide enough since the
int16 arithmetic never wraps (values lie in `[-255, 765]`). -/
def sumAbsDiff (p c : ℕ × ℕ × ℕ) : ℤ :=
  |(c.1 : ℤ) - (p.1 : ℤ)| + |(c.2.1 : ℤ) - (p.2.1 : ℤ)| + |(c.2.2 : ℤ) - (p.2.2 : ℤ)|

/-- Changed-pixel mask `abs_diff_arr > self._current_dynamic_threshold`
(`pipeline.py` line 295).  The threshold is a Python number, modelled in `ℚ`. -/
def pixelChanged (T : ℚ) (p c : ℕ × ℕ × ℕ) : Bool :=
  decide (T < ((sumAbsDiff p c : ℤ) : ℚ))

/-- Coordinates `(y, x)` of the changed pixels in row-major order
(`np.where(changed_pixels_mask)`, `pipeline.py` line 297). -/
def changedCoords (T : ℚ) (prev curr : Img) : List (ℕ × ℕ) :=
  (List.range curr.height).flatMap fun y =>
    ((List.range curr.width).filter fun x =>
      pixelChanged T (prev.pix y x) (curr.pix y x)).map fun x => (y, x)

/-- Minimum of a list of naturals (`np.min` over a nonempty coordinate array;
`0` on the empty list, which the source never reaches). -/
def minL : List ℕ → ℕ
  | [] => 0
  | x :: xs => xs.foldl min x

/-- Maximum of a list of naturals (`np.max` over a nonempty coordinate array). -/
def maxL : List ℕ → ℕ
  | [] => 0
  | x :: xs => xs.foldl max x

/-- Source `pipeline.py` lines 272-308 (`StreamPipeline._find_dirty_rects`):
an empty or size-mismatched previous image yields the full frame; otherwise the
single bounding box of all changed pixels is yielded, or nothing when no pixel
changed. -/
def findDirtyRects (T : ℚ) (prev : Option Img) (curr : Img) : List (ℕ × ℕ × ℕ × ℕ) :=
  match prev with
  | none => [(0, 0, curr.width, curr.height)]
  | some p =>
    if p.width = curr.width ∧ p.height = curr.height then
      let coords := changedCoords T p curr
      if coords = [] then []
      else
        let xs := coords.map Prod.snd
        let ys := coords.map Prod.fst
        [(minL xs, minL ys, maxL xs - minL xs + 1, maxL ys - minL ys + 1)]
    else [(0, 0, curr.width, curr.height)]

/-! ## Chunking of a dirty rect (`_consumer_loop`, lines 480-521) -/

/-- Payload size in bytes of a chunk `(x, y, w, h)`: `w·h·2`. -/
def chunkPayload (c : ℕ × ℕ × ℕ × ℕ) : ℕ := c.2.2.1 * c.2.2.2 * 2

/-- Source `pipeline.py` lines 483-497: the chunks emitted for one dirty rect.
When `w·h·2 > max_chunk_data` the rect is split into bands of height
`chunk_h = max(1, max_chunk_data // (w·2))`; `range(0, h, chunk_h)` makes
`⌈h / chunk_h⌉` bands, the last truncated to the remaining height.  Note the
absence of any guard on `w·2 > max_chunk_data` alone: `chunk_h` degrades to 1
and the bands keep the full row width. -/
def chunksForRect (maxChunk : ℕ) (x y w h : ℕ) : List (ℕ × ℕ × ℕ × ℕ) :=
  if w * h * 2 > maxChunk then
    if w * 2 = 0 then []
    else
      let ch := max 1 (maxChunk / (w * 2))
      (List.range ((h + ch - 1) / ch)).map fun i => (x, y + i * ch, w, min ch (h - i * ch))
  else [(x, y, w, h)]

/-- Source `server.py` lines 283-291 (`frame_consumer_thread_func` draft): same
splitting, but a rect whose row `w·2` alone exceeds `MAX_CHUNK_DATA_SIZE` is
skipped outright (`if bytes_per_row > MAX_CHUNK_DATA_SIZE: continue`). -/
def serverChunksForRect (maxChunk : ℕ) (x y w h : ℕ) : List (ℕ × ℕ × ℕ × ℕ) :=
  if w * h * 2 > maxChunk then
    if w * 2 = 0 then []
    else if w * 2 > maxChunk then []
    else
      let ch0 := maxChunk / (w * 2)
      let ch := if ch0 = 0 then 1 else ch0
      (List.range ((h + ch - 1) / ch)).map fun i => (x, y + i * ch, w, min ch (h - i * ch))
  else [(x, y, w, h)]

/-! ## Pipeline configuration (`device_config.get(key, default)`) -/

/-- Configuration keys read by `_consumer_loop`; `none` models an absent key, in
which case each `config.get(key, default)` site supplies its own default. -/
structure PipelineConfig where
  minDirtyRectThresholdOpt : Option ℚ
  maxDirtyRectThresholdOpt : Option ℚ
  thresholdStepUpOpt : Option ℚ
  thresholdStepDownOpt : Option ℚ
  targetFpsOpt : Option ℚ
  fpsHysteresisFactorOpt : Option ℚ
  fpsHistorySizeOpt : Option ℕ
  maxChunkDataSizeOpt : Option ℕ

/-- Session-start reset value `config.get(min_dirty_rect_threshold, 10)`
(`pipeline.py` line 440, also line 112 in `__init__`). -/
def PipelineConfig.resetThreshold (c : PipelineConfig) : ℚ :=
  c.minDirtyRectThresholdOpt.getD 10

/-- Controller floor `config.get(min_dirty_rect_threshold, 5)` (line 449). -/
def PipelineConfig.minThresh (c : PipelineConfig) : ℚ :=
  c.minDirtyRectThresholdOpt.getD 5

/-- Controller ceiling `config.get(max_dirty_rect_threshold, 220)` (line 450). -/
def PipelineConfig.maxThresh (c : PipelineConfig) : ℚ :=
  c.maxDirtyRectThresholdOpt.getD 220

/-- Step `config.get(threshold_adjustment_step_up, 10)` (line 451). -/
def PipelineConfig.stepUp (c : PipelineConfig) : ℚ :=
  c.thresholdStepUpOpt.getD 10

/-- Step `config.get(threshold_adjustment_step_down, 5)` (line 452). -/
def PipelineConfig.stepDown (c : PipelineConfig) : ℚ :=
  c.thresholdStepDownOpt.getD 5

/-- Target `config.get(target_fps, 15.0)` (line 446). -/
def PipelineConfig.targetFps (c : PipelineConfig) : ℚ :=
  c.targetFpsOpt.getD 15

/-- Factor `config.get(fps_hysteresis_factor, 0.1)` (line 448). -/
def PipelineConfig.hystFactor (c : PipelineConfig) : ℚ :=
  c.fpsHysteresisFactorOpt.getD (1 / 10)

/-- Length `config.get(fps_history_size, 10)` (line 447). -/
def PipelineConfig.historySize (c : PipelineConfig) : ℕ :=
  c.fpsHistorySizeOpt.getD 10

/-- Budget `config.get(max_chunk_data_size, 8192)` (line 453). -/
def PipelineConfig.maxChunk (c : PipelineConfig) : ℕ :=
  c.maxChunkDataSizeOpt.getD 8192

/-- A configuration with every key absent (all defaults in force). -/
def defaultConfig : PipelineConfig :=
  ⟨none, none, none, none, none, none, none, none⟩

/-! ## Consumer session state machine (`_consumer_loop`) -/

/-- Per-session consumer state: the previously transmitted image, the dynamic
threshold, and the rolling frame-time history (most recent last). -/
structure ConsumerState where
  prevImage : Option Img
  threshold : ℚ
  history : List ℚ

/-- Session-start reset (`pipeline.py` lines 439-441): previous image `None`,
threshold back to `config.get(min_dirty_rect_threshold, 10)`, history cleared. -/
def initConsumerState (cfg : PipelineConfig) : ConsumerState :=
  ⟨none, cfg.resetThreshold, []⟩

/-- Append on a `deque(maxlen = m)`: the oldest entries are dropped so that at
most `m` remain. -/
def dequeAppend (m : ℕ) (l : List ℚ) (x : ℚ) : List ℚ :=
  let l' := l ++ [x]
  l'.drop (l'.length - m)

/-- Source `pipeline.py` lines 541-547: the hysteresis comparison of the
computed FPS against the target and the clamped threshold adjustment
(`hysteresis = target_fps * hyst_factor`). -/
def controllerAdjust (cfg : PipelineConfig) (T fps : ℚ) : ℚ :=
  if fps < cfg.targetFps - cfg.targetFps * cfg.hystFactor then
    min cfg.maxThresh (T + cfg.stepUp)
  else if cfg.targetFps + cfg.targetFps * cfg.hystFactor < fps then
    max cfg.minThresh (T - cfg.stepDown)
  else T

/-- Source `pipeline.py` lines 536-547: the adaptive threshold controller run
after a completed frame, acting on the already-appended history: when the
history is full, `avg = mean`, `fps = 1/avg if avg > 0 else 0`, then the
hysteresis adjustment. -/
def controllerUpdate (cfg : PipelineConfig) (T : ℚ) (hist : List ℚ) : ℚ :=
  if cfg.historySize ≤ hist.length ∧ 0 < cfg.historySize then
    let avg := hist.sum / hist.length
    let fps := if 0 < avg then 1 / avg else 0
    controllerAdjust cfg T fps
  else T

/-- The dirty rects computed for a popped frame (`pipeline.py` line 474). -/
def frameRects (s : ConsumerState) (curr : Img) : List (ℕ × ℕ × ℕ × ℕ) :=
  findDirtyRects s.threshold s.prevImage curr

/-- All chunks the consumer attempts to send for one frame, in emission order
(outer loop over dirty rects, inner loop over bands). -/
def frameChunks (cfg : PipelineConfig) (s : ConsumerState) (curr : Img) :
    List (ℕ × ℕ × ℕ × ℕ) :=
  (frameRects s curr).flatMap fun r => chunksForRect cfg.maxChunk r.1 r.2.1 r.2.2.1 r.2.2.2

/-- Whether a socket error hits this frame: `sendFails i` tells whether the
`i`-th `sendall` of the frame raises `socket.error`.  The loops break at the
first failure, so an error occurs iff some attempted chunk index fails. -/
def frameSocketError (cfg : PipelineConfig) (s : ConsumerState) (curr : Img)
    (sendFails : ℕ → Bool) : Bool :=
  (List.range (frameChunks cfg s curr).length).any sendFails

/-- One iteration of `_consumer_loop` (lines 455-553) on an already-resized
frame `curr` whose total processing time is `t`.  On a socket error the raised
exception skips the promotion of `curr`, the history append and the controller,
and the `except socket.error` handler breaks the loop (second component
`false`); otherwise the image is promoted, the time recorded and the
controller run. -/
def processFrame (cfg : PipelineConfig) (s : ConsumerState) (curr : Img) (t : ℚ)
    (sendFails : ℕ → Bool) : ConsumerState × Bool :=
  if frameSocketError cfg s curr sendFails then (s, false)
  else
    let hist := dequeAppend cfg.historySize s.history t
    (⟨some curr, controllerUpdate cfg s.threshold hist, hist⟩, true)

/-- A whole session: frames are processed in order until a socket error breaks
the loop. -/
def runFrames (cfg : PipelineConfig) (s : ConsumerState) :
    List (Img × ℚ × (ℕ → Bool)) → ConsumerState
  | [] => s
  | inp :: rest =>
    let r := processFrame cfg s inp.1 inp.2.1 inp.2.2
    if r.2 then runFrames cfg r.1 rest else r.1

/-! ## Colour correction (`_apply_gamma_and_white_balance`) -/

/-- Source `pipeline.py` lines 180-201 (also `server.py` lines 143-151), on one
channel value `c ∈ [0,255]` with white-balance multiplier `s`:
`np.clip(((c/255)**gamma * s) * 255, 0, 255).astype(np.uint8)`.  The float
computation is idealised over `ℝ`; the `astype(np.uint8)` cast truncates toward
zero, which on the clipped nonnegative range is the floor. -/
noncomputable def applyGammaWBChannel (gamma s : ℝ) (c : ℕ) : ℤ :=
  ⌊min (255 : ℝ) (max 0 ((((c : ℝ) / 255) ^ gamma * s) * 255))⌋

/-- Modelled from the claim wording: round-to-nearest of
`clip(255 · ((c/255)^gamma · s), 0, 255)`. -/
noncomputable def specColorChannel (gamma s : ℝ) (c : ℕ) : ℤ :=
  round (min (255 : ℝ) (max 0 (255 * (((c : ℝ) / 255) ^ gamma * s))))

/-! ## Floyd-Steinberg dithering (`_apply_dithering_numba`) -/

/-- Working float buffer of the dither pass (`pixels` array), idealised in `ℚ`
(all the propagated weights are dyadic). -/
def DitherBuf : Type := ℕ → ℕ → ℚ × ℚ × ℚ

/-- Rounding half to even, the semantics of Python/numba `round` on floats. -/
def roundHalfEven (q : ℚ) : ℤ :=
  if Int.fract q < 1 / 2 then ⌊q⌋
  else if 1 / 2 < Int.fract q then ⌊q⌋ + 1
  else if ⌊q⌋ % 2 = 0 then ⌊q⌋ else ⌊q⌋ + 1

/-- Sequential clamping `if v < 0: v = 0` then `if v > 255: v = 255`
(`_quantize_and_get_error_numba`, `pipeline.py` lines 34-44). -/
def clampQ (v : ℚ) : ℚ := if v < 0 then 0 else if 255 < v then 255 else v

/-- One channel of `_quantize_and_get_error_numba`: `round(c / step) * step`
clamped to `[0, 255]`; `step` is 8 for R and B, 4 for G. -/
def quantChannel (step : ℚ) (c : ℚ) : ℚ :=
  clampQ ((roundHalfEven (c / step) : ℤ) * step)

/-- Quantised pixel `(new_r, new_g, new_b)` of the source, steps `(8, 4, 8)`. -/
def quantPixel (p : ℚ × ℚ × ℚ) : ℚ × ℚ × ℚ :=
  (quantChannel 8 p.1, quantChannel 4 p.2.1, quantChannel 8 p.2.2)

/-- Quantisation error `(error_r, error_g, error_b) = old - new`. -/
def errPixel (p q : ℚ × ℚ × ℚ) : ℚ × ℚ × ℚ :=
  (p.1 - q.1, p.2.1 - q.2.1, p.2.2 - q.2.2)

/-- Error scaled by a diffusion weight (`error_r * 7 / 16.0` and friends). -/
def scaleErr (k : ℚ) (e : ℚ × ℚ × ℚ) : ℚ × ℚ × ℚ :=
  (e.1 * k, e.2.1 * k, e.2.2 * k)

/-- Overwrite one buffer cell (`pixels[y, x] = (new_r, new_g, new_b)`). -/
def setPix (buf : DitherBuf) (y x : ℕ) (v : ℚ × ℚ × ℚ) : DitherBuf :=
  fun j i => if j = y ∧ i = x then v else buf j i

/-- Accumulate error into one buffer cell (`pixels[y, x, c] += ...`). -/
def addPix (buf : DitherBuf) (y x : ℕ) (e : ℚ × ℚ × ℚ) : DitherBuf :=
  fun j i =>
    if j = y ∧ i = x then
      ((buf j i).1 + e.1, (buf j i).2.1 + e.2.1, (buf j i).2.2 + e.2.2)
    else buf j i

/-- Source `pipeline.py` lines 56-82 (`_apply_dithering_numba`), the body for
one position `(y, x)`: quantise in place, then diffuse the error with weights
7/16 right, 3/16 down-left, 5/16 down, 1/16 down-right, guarded by the
`x < width - 1`, `y < height - 1`, `x > 0` bounds checks of the source. -/
def ditherStep (W H : ℕ) (buf : DitherBuf) (p : ℕ × ℕ) : DitherBuf :=
  let y := p.1
  let x := p.2
  let old := buf y x
  let q := quantPixel old
  let e := errPixel old q
  let b1 := setPix buf y x q
  let b2 := if x < W - 1 then addPix b1 y (x + 1) (scaleErr (7 / 16) e) else b1
  let b3 := if y < H - 1 ∧ 0 < x then addPix b2 (y + 1) (x - 1) (scaleErr (3 / 16) e) else b2
  let b4 := if y < H - 1 then addPix b3 (y + 1) x (scaleErr (5 / 16) e) else b3
  if y < H - 1 ∧ x < W - 1 then addPix b4 (y + 1) (x + 1) (scaleErr (1 / 16) e) else b4

/-- Row-major visit order of the double loop `for y in range(height): for x in
range(width)`. -/
def rmPositions (W H : ℕ) : List (ℕ × ℕ) :=
  (List.range H).flatMap fun y => (List.range W).map fun x => (y, x)

/-- Strict row-major order on positions. -/
def rmBefore (q p : ℕ × ℕ) : Bool :=
  decide (q.1 < p.1 ∨ (q.1 = p.1 ∧ q.2 < p.2))

/-- The whole dither pass: fold the per-position body over the row-major visit
order. -/
def ditherRun (W H : ℕ) (buf : DitherBuf) : DitherBuf :=
  (rmPositions W H).foldl (ditherStep W H) buf

/-- Buffer contents at the moment the loop visits `(y, x)`: the fold over the
strictly earlier positions. -/
def visitBuf (W H : ℕ) (buf : DitherBuf) (y x : ℕ) : DitherBuf :=
  ((rmPositions W H).takeWhile fun q => rmBefore q (y, x)).foldl (ditherStep W H) buf

/-! ## Spec-side definitions and concrete fixtures -/

/-- Modelled from the claim wording (spec §4.6): `avg = mean(history)`,
`fps = 1/avg` (0 if `avg ≤ 0`), `band = target_fps · h`, then
`T ← min(Tmax, T + up)` when `fps < target_fps − band`,
`T ← max(Tmin, T − down)` when `fps > target_fps + band`, else unchanged. -/
def specThresholdUpdate (targetFps hyst Tmin Tmax up down T : ℚ) (hist : List ℚ) : ℚ :=
  let avg := hist.sum / hist.length
  let fps := if avg ≤ 0 then 0 else 1 / avg
  let band := targetFps * hyst
  if fps < targetFps - band then min Tmax (T + up)
  else if targetFps + band < fps then max Tmin (T - down)
  else T

/-- Abscissa of the bounding box: `min` over the `x` coordinates. -/
def bboxX (l : List (ℕ × ℕ)) : ℕ := minL (l.map Prod.snd)

/-- Ordinate of the bounding box: `min` over the `y` coordinates. -/
def bboxY (l : List (ℕ × ℕ)) : ℕ := minL (l.map Prod.fst)

/-- Right edge of the bounding box: `max` over the `x` coordinates. -/
def bboxXmax (l : List (ℕ × ℕ)) : ℕ := maxL (l.map Prod.snd)

/-- Bottom edge of the bounding box: `max` over the `y` coordinates. -/
def bboxYmax (l : List (ℕ × ℕ)) : ℕ := maxL (l.map Prod.fst)

/-- Concrete 2×2 all-black image, used to instantiate universally quantified
theorems at a concrete input. -/
def prevW : Img := ⟨2, 2, fun _ _ => (0, 0, 0)⟩

/-- Concrete 2×2 image differing from `prevW` in the single pixel `(y,x)=(0,1)`. -/
def currW : Img := ⟨2, 2, fun y x => if y = 0 ∧ x = 1 then (255, 0, 0) else (0, 0, 0)⟩

/-- Configuration whose only explicit key is `fps_history_size = 1`. -/
def cfgH1 : PipelineConfig := ⟨none, none, none, none, none, none, some 1, none⟩

/-! ## Helper lemmas: list minima and maxima -/

theorem foldl_min_le_init (l : List ℕ) (a : ℕ) : l.foldl min a ≤ a := by
  induction l generalizing a with
  | nil => exact le_rfl
  | cons x xs ih => exact le_trans (ih (min a x)) (min_le_left a x)

theorem foldl_min_le_mem (l : List ℕ) (a b : ℕ) (hb : b ∈ l) : l.foldl min a ≤ b := by
  induction l generalizing a with
  | nil => cases hb
  | cons x xs ih =>
    rcases List.mem_cons.1 hb with h | h
    · subst h
      exact le_trans (foldl_min_le_init xs (min a b)) (min_le_right a b)
    · exact ih (min a x) h

theorem foldl_min_mem (l : List ℕ) (a : ℕ) : l.foldl min a = a ∨ l.foldl min a ∈ l := by
  induction l generalizing a with
  | nil => exact Or.inl rfl
  | cons x xs ih =>
    rcases ih (min a x) with h | h
    · rcases min_choice a x with hm | hm
      · exact Or.inl (by rw [List.foldl_cons, h, hm])
      · exact Or.inr (by rw [List.foldl_cons, h, hm]; exact List.mem_cons_self x xs)
    · exact Or.inr (List.mem_cons_of_mem x h)

theorem init_le_foldl_max (l : List ℕ) (a : ℕ) : a ≤ l.foldl max a := by
  induction l generalizing a with
  | nil => exact le_rfl
  | cons x xs ih => exact le_trans (le_max_left a x) (ih (max a x))

theorem mem_le_foldl_max (l : List ℕ) (a b : ℕ) (hb : b ∈ l) : b ≤ l.foldl max a := by
  induction l generalizing a with
  | nil => cases hb
  | cons x xs ih =>
    rcases List.mem_cons.1 hb with h | h
    · subst h
      exact le_trans (le_max_right a b) (init_le_foldl_max xs (max a b))
    · exact ih (max a x) h

theorem foldl_max_mem (l : List ℕ) (a : ℕ) : l.foldl max a = a ∨ l.foldl max a ∈ l := by
  induction l generalizing a with
  | nil => exact Or.inl rfl
  | cons x xs ih =>
    rcases ih (max a x) with h | h
    · rcases max_choice a x with hm | hm
      · exact Or.inl (by rw [List.foldl_cons, h, hm])
      · exact Or.inr (by rw [List.foldl_cons, h, hm]; exact List.mem_cons_self x xs)
    · exact Or.inr (List.mem_cons_of_mem x h)

theorem minL_le (l : List ℕ) (b : ℕ) (hb : b ∈ l) : minL l ≤ b := by
  cases l with
  | nil => cases hb
  | cons x xs =>
    rcases List.mem_cons.1 hb with h | h
    · subst h; exact foldl_min_le_init xs b
    · exact foldl_min_le_mem xs x b h

theorem minL_mem (l : List ℕ) (hl : l ≠ []) : minL l ∈ l := by
  cases l with
  | nil => exact absurd rfl hl
  | cons x xs =>
    rcases foldl_min_mem xs x with h | h
    · rw [minL, h]; exact List.mem_cons_self x xs
    · exact List.mem_cons_of_mem x (by rw [minL]; exact h)

theorem le_maxL (l : List ℕ) (b : ℕ) (hb : b ∈ l) : b ≤ maxL l := by
  cases l with
  | nil => cases hb
  | cons x xs =>
    rcases List.mem_cons.1 hb with h | h
    · subst h; exact init_le_foldl_max xs b
    · exact mem_le_foldl_max xs x b h

theorem maxL_mem (l : List ℕ) (hl : l ≠ []) : maxL l ∈ l := by
  cases l with
  | nil => exact absurd rfl hl
  | cons x xs =>
    rcases foldl_max_mem xs x with h | h
    · rw [maxL, h]; exact List.mem_cons_self x xs
    · exact List.mem_cons_of_mem x (by rw [maxL]; exact h)

/-! ## Helper lemmas: the changed-pixel coordinate list -/

theorem mem_changedCoords (T : ℚ) (prev curr : Img) (y x : ℕ) :
    (y, x) ∈ changedCoords T prev curr ↔
      y < curr.height ∧ x < curr.width ∧
        pixelChanged T (prev.pix y x) (curr.pix y x) = true := by
  unfold changedCoords
  simp only [List.mem_flatMap, List.mem_map, List.mem_filter, List.mem_range, Prod.mk.injEq]
  constructor
  · rintro ⟨y', hy', x', ⟨hx', hc⟩, hyy, hxx⟩
    subst hyy; subst hxx
    exact ⟨hy', hx', hc⟩
  · rintro ⟨hy, hx, hc⟩
    exact ⟨y, hy, x, ⟨hx, hc⟩, rfl, rfl⟩

theorem changedCoords_bounds (T : ℚ) (prev curr : Img) (c : ℕ × ℕ)
    (hc : c ∈ changedCoords T prev curr) : c.1 < curr.height ∧ c.2 < curr.width := by
  obtain ⟨y, x⟩ := c
  have h := (mem_changedCoords T prev curr y x).1 hc
  exact ⟨h.1, h.2.1⟩

/-- Unfolding lemma for the `some prev` branch of the detector. -/
theorem findDirtyRects_some_eq (T : ℚ) (p curr : Img) :
    findDirtyRects T (some p) curr =
      if p.width = curr.width ∧ p.height = curr.height then
        (if changedCoords T p curr = [] then []
         else [(bboxX (changedCoords T p curr), bboxY (changedCoords T p curr),
                bboxXmax (changedCoords T p curr) - bboxX (changedCoords T p curr) + 1,
                bboxYmax (changedCoords T p curr) - bboxY (changedCoords T p curr) + 1)])
      else [(0, 0, curr.width, curr.height)] := rfl

/-- C1: for previous and current images of equal dimensions and any threshold
`T`, the dirty-rect detector marks a pixel as changed iff
`|rc−rp| + |gc−gp| + |bc−bp| > T` (the sum computed in signed arithmetic wide
enough to avoid wrap, here `ℤ`); when no pixel is changed it yields no
rectangle, and when at least one is changed it yields exactly one rectangle,
the bounding box `(min_x, min_y, max_x − min_x + 1, max_y − min_y + 1)` of all
changed pixels. -/
theorem C1_dirty_rect_detection (T : ℚ) (prev curr : Img)
    (hw : prev.width = curr.width) (hh : prev.height = curr.height) :
    (∀ y x, (y, x) ∈ changedCoords T prev curr ↔
      y < curr.height ∧ x < curr.width ∧
        T < ((sumAbsDiff (prev.pix y x) (curr.pix y x) : ℤ) : ℚ)) ∧
    (changedCoords T prev curr = [] → findDirtyRects T (some prev) curr = []) ∧
    (changedCoords T prev curr ≠ [] →
      findDirtyRects T (some prev) curr =
        [(bboxX (changedCoords T prev curr), bboxY (changedCoords T prev curr),
          bboxXmax (changedCoords T prev curr) - bboxX (changedCoords T prev curr) + 1,
          bboxYmax (changedCoords T prev curr) - bboxY (changedCoords T prev curr) + 1)] ∧
      (∀ c ∈ changedCoords T prev curr,
        bboxX (changedCoords T prev curr) ≤ c.2 ∧ c.2 ≤ bboxXmax (changedCoords T prev curr) ∧
        bboxY (changedCoords T prev curr) ≤ c.1 ∧ c.1 ≤ bboxYmax (changedCoords T prev curr)) ∧
      (∃ c ∈ changedCoords T prev curr, c.2 = bboxX (changedCoords T prev curr)) ∧
      (∃ c ∈ changedCoords T prev curr, c.2 = bboxXmax (changedCoords T prev curr)) ∧
      (∃ c ∈ changedCoords T prev curr, c.1 = bboxY (changedCoords T prev curr)) ∧
      (∃ c ∈ changedCoords T prev curr, c.1 = bboxYmax (changedCoords T prev curr))) := by
  refine ⟨?_, ?_, ?_⟩
  · intro y x
    rw [mem_changedCoords]
    unfold pixelChanged
    simp only [decide_eq_true_eq]
  · intro hempty
    rw [findDirtyRects_some_eq, if_pos ⟨hw, hh⟩, if_pos hempty]
  · intro hne
    have hmapx : (changedCoords T prev curr).map Prod.snd ≠ [] := by
      simpa using hne
    have hmapy : (changedCoords T prev curr).map Prod.fst ≠ [] := by
      simpa using hne
    refine ⟨?_, ?_, ?_, ?_, ?_, ?_⟩
    · rw [findDirtyRects_some_eq, if_pos ⟨hw, hh⟩, if_neg hne]
    · intro c hc
      refine ⟨?_, ?_, ?_, ?_⟩
      · exact minL_le _ _ (List.mem_map_of_mem Prod.snd hc)
      · exact le_maxL _ _ (List.mem_map_of_mem Prod.snd hc)
      · exact minL_le _ _ (List.mem_map_of_mem Prod.fst hc)
      · exact le_maxL _ _ (List.mem_map_of_mem Prod.fst hc)
    · obtain ⟨c, hc, he⟩ := List.mem_map.1 (minL_mem _ hmapx)
      exact ⟨c, hc, he⟩
    · obtain ⟨c, hc, he⟩ := List.mem_map.1 (maxL_mem _ hmapx)
      exact ⟨c, hc, he⟩
    · obtain ⟨c, hc, he⟩ := List.mem_map.1 (minL_mem _ hmapy)
      exact ⟨c, hc, he⟩
    · obtain ⟨c, hc, he⟩ := List.mem_map.1 (maxL_mem _ hmapy)
      exact ⟨c, hc, he⟩

/-- Unfolding lemma for the empty-previous-image branch of the detector. -/
theorem findDirtyRects_none_eq (T : ℚ) (curr : Img) :
    findDirtyRects T none curr = [(0, 0, curr.width, curr.height)] := rfl

/-- C1 witness: the detector theorem instantiated at a concrete pair of 2×2
images differing in one pixel. -/
theorem C1_dirty_rect_detection_witness :
    prevW.width = currW.width ∧ prevW.height = currW.height ∧
    ((∀ y x, (y, x) ∈ changedCoords 10 prevW currW ↔
      y < currW.height ∧ x < currW.width ∧
        (10 : ℚ) < ((sumAbsDiff (prevW.pix y x) (currW.pix y x) : ℤ) : ℚ)) ∧
    (changedCoords 10 prevW currW = [] → findDirtyRects 10 (some prevW) currW = []) ∧
    (changedCoords 10 prevW currW ≠ [] →
      findDirtyRects 10 (some prevW) currW =
        [(bboxX (changedCoords 10 prevW currW), bboxY (changedCoords 10 prevW currW),
          bboxXmax (changedCoords 10 prevW currW) - bboxX (changedCoords 10 prevW currW) + 1,
          bboxYmax (changedCoords 10 prevW currW) - bboxY (changedCoords 10 prevW currW) + 1)] ∧
      (∀ c ∈ changedCoords 10 prevW currW,
        bboxX (changedCoords 10 prevW currW) ≤ c.2 ∧
          c.2 ≤ bboxXmax (changedCoords 10 prevW currW) ∧
        bboxY (changedCoords 10 prevW currW) ≤ c.1 ∧
          c.1 ≤ bboxYmax (changedCoords 10 prevW currW)) ∧
      (∃ c ∈ changedCoords 10 prevW currW, c.2 = bboxX (changedCoords 10 prevW currW)) ∧
      (∃ c ∈ changedCoords 10 prevW currW, c.2 = bboxXmax (changedCoords 10 prevW currW)) ∧
      (∃ c ∈ changedCoords 10 prevW currW, c.1 = bboxY (changedCoords 10 prevW currW)) ∧
      (∃ c ∈ changedCoords 10 prevW currW, c.1 = bboxYmax (changedCoords 10 prevW currW)))) :=
  ⟨rfl, rfl, C1_dirty_rect_detection 10 prevW currW rfl rfl⟩

/-- C2: the consumer session starts with an empty previous image, and the
detector on an empty previous image yields exactly the full-frame rectangle
`(0, 0, W, H)`; hence the first frame of every accepted client session is a
single full-frame transmission. -/
theorem C2_session_start_full_frame (cfg : PipelineConfig) (curr : Img) :
    (initConsumerState cfg).prevImage = none ∧
    (∀ T : ℚ, findDirtyRects T none curr = [(0, 0, curr.width, curr.height)]) ∧
    frameRects (initConsumerState cfg) curr = [(0, 0, curr.width, curr.height)] :=
  ⟨rfl, fun _ => rfl, rfl⟩

/-- C9 counterexample: on a degenerate current image of width 0 the detector
still yields the full-frame rectangle `(0, 0, 0, 1)`, whose width is not
positive, so the claim fails for arbitrary inputs. -/
theorem C9_degenerate_rect_counterexample :
    findDirtyRects 10 none ⟨0, 1, fun _ _ => (0, 0, 0)⟩ = [(0, 0, 0, 1)] ∧
    ¬ (0 < ((0, 0, 0, 1) : ℕ × ℕ × ℕ × ℕ).2.2.1) :=
  ⟨rfl, by decide⟩

/-- C9 amended: provided the current image has positive width and height,
every rectangle yielded by the dirty-rect detector has positive width and
height and lies fully inside the image bounds. -/
theorem C9_rect_bounds_amended (T : ℚ) (prev : Option Img) (curr : Img)
    (hW : 0 < curr.width) (hH : 0 < curr.height) :
    ∀ r ∈ findDirtyRects T prev curr,
      0 < r.2.2.1 ∧ 0 < r.2.2.2 ∧ r.1 + r.2.2.1 ≤ curr.width ∧
        r.2.1 + r.2.2.2 ≤ curr.height := by
  intro r hr
  cases prev with
  | none =>
    rw [findDirtyRects_none_eq, List.mem_singleton] at hr
    subst hr
    exact ⟨hW, hH, by simp, by simp⟩
  | some p =>
    rw [findDirtyRects_some_eq] at hr
    by_cases hsz : p.width = curr.width ∧ p.height = curr.height
    · rw [if_pos hsz] at hr
      by_cases hem : changedCoords T p curr = []
      · rw [if_pos hem] at hr; cases hr
      · rw [if_neg hem, List.mem_singleton] at hr
        subst hr
        dsimp only
        have hmapx : (changedCoords T p curr).map Prod.snd ≠ [] := by simpa using hem
        have hmapy : (changedCoords T p curr).map Prod.fst ≠ [] := by simpa using hem
        obtain ⟨cx, hcx, hcxe⟩ := List.mem_map.1 (maxL_mem _ hmapx)
        obtain ⟨cy, hcy, hcye⟩ := List.mem_map.1 (maxL_mem _ hmapy)
        have hxb : bboxXmax (changedCoords T p curr) < curr.width := by
          rw [bboxXmax, ← hcxe]
          exact (changedCoords_bounds T p curr cx hcx).2
        have hyb : bboxYmax (changedCoords T p curr) < curr.height := by
          rw [bboxYmax, ← hcye]
          exact (changedCoords_bounds T p curr cy hcy).1
        have hminx : bboxX (changedCoords T p curr) ≤ bboxXmax (changedCoords T p curr) := by
          rw [bboxX, bboxXmax, ← hcxe]
          exact minL_le _ _ (List.mem_map_of_mem Prod.snd hcx)
        have hminy : bboxY (changedCoords T p curr) ≤ bboxYmax (changedCoords T p curr) := by
          rw [bboxY, bboxYmax, ← hcye]
          exact minL_le _ _ (List.mem_map_of_mem Prod.fst hcy)
        refine ⟨Nat.succ_pos _, Nat.succ_pos _, ?_, ?_⟩
        · omega
        · omega
    · rw [if_neg hsz, List.mem_singleton] at hr
      subst hr
      exact ⟨hW, hH, by simp, by simp⟩

/-- C9 witness: the amended bounds theorem instantiated at concrete 2×2
images. -/
theorem C9_rect_bounds_amended_witness :
    0 < currW.width ∧ 0 < currW.height ∧
    (∀ r ∈ findDirtyRects 10 (some prevW) currW,
      0 < r.2.2.1 ∧ 0 < r.2.2.2 ∧ r.1 + r.2.2.1 ≤ currW.width ∧
        r.2.1 + r.2.2.2 ≤ currW.height) :=
  ⟨by decide, by decide, C9_rect_bounds_amended 10 (some prevW) currW (by decide) (by decide)⟩

/-- C4 counterexample: with `max_chunk_payload = 4` and dirty rect
`(0, 0, 3, 2)` whose row size `3·2 = 6` exceeds it, the pipeline consumer does
not skip the rect: it emits two height-1 chunks, each of payload `6 > 4`. -/
theorem C4_oversize_row_counterexample :
    4 < 3 * 2 ∧
    chunksForRect 4 0 0 3 2 = [(0, 0, 3, 1), (0, 1, 3, 1)] ∧
    chunksForRect 4 0 0 3 2 ≠ [] ∧
    chunkPayload (0, 0, 3, 1) = 6 ∧ 4 < chunkPayload (0, 0, 3, 1) := by
  refine ⟨by decide, by decide, by decide, by decide, by decide⟩

/-- C4 amended: a dirty rect whose row size `w·2` exceeds `max_chunk_payload`
is not skipped by the pipeline consumer: it is split into height-1 bands whose
payload `w·2` still exceeds `max_chunk_payload` (the `server.py` draft instead
skips such a rect entirely, emitting no chunk; neither draft records an
error); every chunk of a rect with `w·2 ≤ max_chunk_payload` has payload at
most `max_chunk_payload`. -/
theorem C4_chunk_payload_amended (maxChunk x y w h : ℕ) (hh : 0 < h) :
    (∀ c ∈ chunksForRect maxChunk x y w h,
      (maxChunk < w * 2 → c.2.2.2 = 1 ∧ chunkPayload c = w * 2) ∧
      (w * 2 ≤ maxChunk → chunkPayload c ≤ maxChunk)) ∧
    (maxChunk < w * 2 → chunksForRect maxChunk x y w h ≠ [] ∧
      serverChunksForRect maxChunk x y w h = []) := by
  constructor
  · intro c hc
    constructor
    · intro hrow
      have hw0 : 0 < w := by omega
      have hfull : w * h * 2 > maxChunk := by
        have : w * 2 ≤ w * h * 2 := by nlinarith
        omega
      have hdiv : maxChunk / (w * 2) = 0 := Nat.div_eq_of_lt hrow
      have hch1 : max 1 (maxChunk / (w * 2)) = 1 := by
        rw [hdiv]
        exact Nat.max_eq_left (Nat.zero_le 1)
      unfold chunksForRect at hc
      rw [if_pos hfull, if_neg (by omega : ¬ w * 2 = 0), hch1] at hc
      simp only [Nat.div_one, Nat.add_sub_cancel, Nat.mul_one] at hc
      rw [List.mem_map] at hc
      obtain ⟨i, hi, hie⟩ := hc
      rw [List.mem_range] at hi
      subst hie
      have hmin : min 1 (h - i) = 1 := Nat.min_eq_left (by omega)
      constructor
      · simpa using hmin
      · simp only [chunkPayload]
        rw [hmin]
        ring
    · intro hrow
      unfold chunksForRect at hc
      by_cases hfull : w * h * 2 > maxChunk
      · rw [if_pos hfull] at hc
        have hw0 : ¬ w * 2 = 0 := by
          intro h0
          obtain rfl : w = 0 := by omega
          omega
        rw [if_neg hw0] at hc
        have hone : 1 ≤ maxChunk / (w * 2) :=
          (Nat.one_le_div_iff (by omega)).2 hrow
        have hch : max 1 (maxChunk / (w * 2)) = maxChunk / (w * 2) :=
          Nat.max_eq_right hone
        rw [List.mem_map] at hc
        obtain ⟨i, _, hie⟩ := hc
        subst hie
        simp only [chunkPayload, hch]
        have hle : min (maxChunk / (w * 2)) (h - i * (maxChunk / (w * 2))) ≤ maxChunk / (w * 2) :=
          Nat.min_le_left _ _
        have hmul : maxChunk / (w * 2) * (w * 2) ≤ maxChunk := Nat.div_mul_le_self _ _
        calc w * min (maxChunk / (w * 2)) (h - i * (maxChunk / (w * 2))) * 2
            ≤ w * (maxChunk / (w * 2)) * 2 := by
              exact Nat.mul_le_mul_right 2 (Nat.mul_le_mul_left w hle)
          _ = maxChunk / (w * 2) * (w * 2) := by ring
          _ ≤ maxChunk := hmul
      · rw [if_neg hfull, List.mem_singleton] at hc
        subst hc
        simp only [chunkPayload]
        omega
  · intro hrow
    have hw0 : 0 < w := by omega
    have hfull : w * h * 2 > maxChunk := by
      have : w * 2 ≤ w * h * 2 := by nlinarith
      omega
    have hdiv : maxChunk / (w * 2) = 0 := Nat.div_eq_of_lt hrow
    constructor
    · unfold chunksForRect
      rw [if_pos hfull, if_neg (by omega : ¬ w * 2 = 0)]
      simp only [hdiv, Nat.max_eq_left (by omega : 0 ≤ 1)]
      simp only [ne_eq, List.map_eq_nil_iff, List.range_eq_nil]
      omega
    · unfold serverChunksForRect
      rw [if_pos hfull, if_neg (by omega : ¬ w * 2 = 0), if_pos (by omega : w * 2 > maxChunk)]

/-- C4 witness: the amended chunking theorem instantiated at
`max_chunk_payload = 4`, rect `(0, 0, 3, 2)`. -/
theorem C4_chunk_payload_amended_witness :
    0 < 2 ∧
    ((∀ c ∈ chunksForRect 4 0 0 3 2,
      (4 < 3 * 2 → c.2.2.2 = 1 ∧ chunkPayload c = 3 * 2) ∧
      (3 * 2 ≤ 4 → chunkPayload c ≤ 4)) ∧
    (4 < 3 * 2 → chunksForRect 4 0 0 3 2 ≠ [] ∧
      serverChunksForRect 4 0 0 3 2 = [])) :=
  ⟨by decide, C4_chunk_payload_amended 4 0 0 3 2 (by decide)⟩

/-- C5: if a socket error occurs while sending any chunk of a frame, the
consumer leaves the session state — in particular the previous-transmitted
image — exactly as it was before the frame, and the consumer loop exits, so
no further frames are processed on that connection. -/
theorem C5_socket_error_no_promote (cfg : PipelineConfig) (s : ConsumerState) (curr : Img)
    (t : ℚ) (sendFails : ℕ → Bool)
    (herr : frameSocketError cfg s curr sendFails = true) :
    (processFrame cfg s curr t sendFails).1.prevImage = s.prevImage ∧
    (processFrame cfg s curr t sendFails).1 = s ∧
    (processFrame cfg s curr t sendFails).2 = false := by
  simp [processFrame, herr]

/-- C5 witness: the socket-error theorem instantiated with a send oracle that
fails on every chunk. -/
theorem C5_socket_error_no_promote_witness :
    frameSocketError defaultConfig (initConsumerState defaultConfig) currW (fun _ => true) = true ∧
    (processFrame defaultConfig (initConsumerState defaultConfig) currW 1 (fun _ => true)).1 =
      initConsumerState defaultConfig ∧
    (processFrame defaultConfig (initConsumerState defaultConfig) currW 1 (fun _ => true)).2 =
      false := by
  have h := C5_socket_error_no_promote defaultConfig (initConsumerState defaultConfig) currW 1
    (fun _ => true) (by decide)
  exact ⟨by decide, h.2.1, h.2.2⟩

/-- C6: after a completed (error-free) frame, once the appended
processing-time history holds its full length, the new threshold equals the
spec formula: `avg = mean(history)`, `fps = 1/avg` (0 if `avg ≤ 0`),
`band = target_fps·h`, then `T ← min(Tmax, T + up)` when
`fps < target_fps − band`, `T ← max(Tmin, T − down)` when
`fps > target_fps + band`, and `T` unchanged otherwise. -/
theorem C6_adaptive_controller (cfg : PipelineConfig) (s : ConsumerState) (curr : Img)
    (t : ℚ) (sendFails : ℕ → Bool)
    (hok : frameSocketError cfg s curr sendFails = false)
    (hpos : 0 < cfg.historySize)
    (hfull : (dequeAppend cfg.historySize s.history t).length = cfg.historySize) :
    (processFrame cfg s curr t sendFails).1.threshold =
      specThresholdUpdate cfg.targetFps cfg.hystFactor cfg.minThresh cfg.maxThresh
        cfg.stepUp cfg.stepDown s.threshold (dequeAppend cfg.historySize s.history t) := by
  simp only [processFrame, hok, Bool.false_eq_true, if_false]
  show controllerUpdate cfg s.threshold (dequeAppend cfg.historySize s.history t) = _
  simp only [controllerUpdate, controllerAdjust, specThresholdUpdate]
  rw [if_pos ⟨le_of_eq hfull.symm, hpos⟩]
  by_cases hA : (dequeAppend cfg.historySize s.history t).sum /
      ((dequeAppend cfg.historySize s.history t).length : ℚ) ≤ 0
  · rw [if_neg (not_lt.2 hA), if_pos hA]
  · rw [if_pos (lt_of_not_le hA), if_neg hA]

/-- C6 witness: the controller theorem instantiated with a history size of 1,
so one processed frame fills the history. -/
theorem C6_adaptive_controller_witness :
    frameSocketError cfgH1 (initConsumerState cfgH1) currW (fun _ => false) = false ∧
    0 < cfgH1.historySize ∧
    (dequeAppend cfgH1.historySize (initConsumerState cfgH1).history 1).length =
      cfgH1.historySize ∧
    (processFrame cfgH1 (initConsumerState cfgH1) currW 1 (fun _ => false)).1.threshold =
      specThresholdUpdate cfgH1.targetFps cfgH1.hystFactor cfgH1.minThresh cfgH1.maxThresh
        cfgH1.stepUp cfgH1.stepDown (initConsumerState cfgH1).threshold
        (dequeAppend cfgH1.historySize (initConsumerState cfgH1).history 1) :=
  ⟨by decide, by decide, by decide,
    C6_adaptive_controller cfgH1 (initConsumerState cfgH1) currW 1 (fun _ => false)
      (by decide) (by decide) (by decide)⟩

theorem controllerAdjust_bounds (cfg : PipelineConfig) (T fps : ℚ)
    (hu : 0 ≤ cfg.stepUp) (hd : 0 ≤ cfg.stepDown)
    (hmm : cfg.minThresh ≤ cfg.maxThresh)
    (h1 : cfg.minThresh ≤ T) (h2 : T ≤ cfg.maxThresh) :
    cfg.minThresh ≤ controllerAdjust cfg T fps ∧ controllerAdjust cfg T fps ≤ cfg.maxThresh := by
  unfold controllerAdjust
  by_cases hlo : fps < cfg.targetFps - cfg.targetFps * cfg.hystFactor
  · rw [if_pos hlo]
    exact ⟨le_min hmm (le_trans h1 (by linarith)), min_le_left _ _⟩
  · rw [if_neg hlo]
    by_cases hhi : cfg.targetFps + cfg.targetFps * cfg.hystFactor < fps
    · rw [if_pos hhi]
      exact ⟨le_max_left _ _, max_le hmm (by linarith)⟩
    · rw [if_neg hhi]
      exact ⟨h1, h2⟩

theorem controllerUpdate_bounds (cfg : PipelineConfig) (T : ℚ) (hist : List ℚ)
    (hu : 0 ≤ cfg.stepUp) (hd : 0 ≤ cfg.stepDown)
    (hmm : cfg.minThresh ≤ cfg.maxThresh)
    (h1 : cfg.minThresh ≤ T) (h2 : T ≤ cfg.maxThresh) :
    cfg.minThresh ≤ controllerUpdate cfg T hist ∧ controllerUpdate cfg T hist ≤ cfg.maxThresh := by
  unfold controllerUpdate
  by_cases hc : cfg.historySize ≤ hist.length ∧ 0 < cfg.historySize
  · rw [if_pos hc]
    exact controllerAdjust_bounds cfg T _ hu hd hmm h1 h2
  · rw [if_neg hc]
    exact ⟨h1, h2⟩

theorem processFrame_threshold_bounds (cfg : PipelineConfig) (s : ConsumerState) (curr : Img)
    (t : ℚ) (sendFails : ℕ → Bool)
    (hu : 0 ≤ cfg.stepUp) (hd : 0 ≤ cfg.stepDown)
    (hmm : cfg.minThresh ≤ cfg.maxThresh)
    (h1 : cfg.minThresh ≤ s.threshold) (h2 : s.threshold ≤ cfg.maxThresh) :
    cfg.minThresh ≤ (processFrame cfg s curr t sendFails).1.threshold ∧
      (processFrame cfg s curr t sendFails).1.threshold ≤ cfg.maxThresh := by
  unfold processFrame
  by_cases hc : frameSocketError cfg s curr sendFails = true
  · rw [if_pos hc]
    exact ⟨h1, h2⟩
  · rw [if_neg hc]
    exact controllerUpdate_bounds cfg s.threshold _ hu hd hmm h1 h2

theorem runFrames_cons (cfg : PipelineConfig) (s : ConsumerState)
    (inp : Img × ℚ × (ℕ → Bool)) (rest : List (Img × ℚ × (ℕ → Bool))) :
    runFrames cfg s (inp :: rest) =
      if (processFrame cfg s inp.1 inp.2.1 inp.2.2).2 then
        runFrames cfg (processFrame cfg s inp.1 inp.2.1 inp.2.2).1 rest
      else (processFrame cfg s inp.1 inp.2.1 inp.2.2).1 := rfl

theorem runFrames_threshold_bounds (cfg : PipelineConfig)
    (hu : 0 ≤ cfg.stepUp) (hd : 0 ≤ cfg.stepDown)
    (hmm : cfg.minThresh ≤ cfg.maxThresh) :
    ∀ (inputs : List (Img × ℚ × (ℕ → Bool))) (s : ConsumerState),
      cfg.minThresh ≤ s.threshold → s.threshold ≤ cfg.maxThresh →
      cfg.minThresh ≤ (runFrames cfg s inputs).threshold ∧
        (runFrames cfg s inputs).threshold ≤ cfg.maxThresh := by
  intro inputs
  induction inputs with
  | nil => intro s h1 h2; exact ⟨h1, h2⟩
  | cons inp rest ih =>
    intro s h1 h2
    have hb := processFrame_threshold_bounds cfg s inp.1 inp.2.1 inp.2.2 hu hd hmm h1 h2
    rw [runFrames_cons]
    by_cases hr : (processFrame cfg s inp.1 inp.2.1 inp.2.2).2 = true
    · rw [if_pos hr]
      exact ih _ hb.1 hb.2
    · rw [if_neg hr]
      exact hb

/-- C7: with nonnegative adjustment steps and a reset value between the
bounds, the dynamic threshold lies in `[Tmin, Tmax]` after the session-start
reset and after every sequence of completed frames. -/
theorem C7_threshold_invariant (cfg : PipelineConfig)
    (hu : 0 ≤ cfg.stepUp) (hd : 0 ≤ cfg.stepDown)
    (h1 : cfg.minThresh ≤ cfg.resetThreshold) (h2 : cfg.resetThreshold ≤ cfg.maxThresh)
    (inputs : List (Img × ℚ × (ℕ → Bool))) :
    (cfg.minThresh ≤ (initConsumerState cfg).threshold ∧
      (initConsumerState cfg).threshold ≤ cfg.maxThresh) ∧
    cfg.minThresh ≤ (runFrames cfg (initConsumerState cfg) inputs).threshold ∧
    (runFrames cfg (initConsumerState cfg) inputs).threshold ≤ cfg.maxThresh := by
  have hmm : cfg.minThresh ≤ cfg.maxThresh := le_trans h1 h2
  refine ⟨⟨h1, h2⟩, ?_⟩
  exact runFrames_threshold_bounds cfg hu hd hmm inputs (initConsumerState cfg) h1 h2

/-- C7 witness: the invariant theorem instantiated at the default
configuration and a one-frame session. -/
theorem C7_threshold_invariant_witness :
    (0 ≤ defaultConfig.stepUp) ∧ (0 ≤ defaultConfig.stepDown) ∧
    (defaultConfig.minThresh ≤ defaultConfig.resetThreshold) ∧
    (defaultConfig.resetThreshold ≤ defaultConfig.maxThresh) ∧
    ((defaultConfig.minThresh ≤ (initConsumerState defaultConfig).threshold ∧
      (initConsumerState defaultConfig).threshold ≤ defaultConfig.maxThresh) ∧
    defaultConfig.minThresh ≤
      (runFrames defaultConfig (initConsumerState defaultConfig)
        [(currW, 1, fun _ => false)]).threshold ∧
    (runFrames defaultConfig (initConsumerState defaultConfig)
        [(currW, 1, fun _ => false)]).threshold ≤ defaultConfig.maxThresh) :=
  ⟨by decide, by decide, by decide, by decide,
    C7_threshold_invariant defaultConfig (by decide) (by decide) (by decide) (by decide)
      [(currW, 1, fun _ => false)]⟩

set_option maxRecDepth 4000 in
theorem rgb565_r_eq : ∀ r < 256, (r &&& 0xF8) <<< 8 = (r >>> 3) <<< 11 := by decide

set_option maxRecDepth 4000 in
theorem rgb565_g_eq : ∀ g < 256, (g &&& 0xFC) <<< 3 = (g >>> 2) <<< 5 := by decide

set_option maxRecDepth 4000 in
theorem rgb565_r_lt : ∀ r < 256, (r &&& 0xF8) <<< 8 < 2 ^ 16 := by decide

set_option maxRecDepth 4000 in
theorem rgb565_g_lt : ∀ g < 256, (g &&& 0xFC) <<< 3 < 2 ^ 16 := by decide

set_option maxRecDepth 4000 in
theorem rgb565_b_lt : ∀ b < 256, b >>> 3 < 2 ^ 16 := by decide

theorem rgb565OfPixel_eq (r g b : ℕ) (hr : r ≤ 255) (hg : g ≤ 255) :
    rgb565OfPixel r g b = rgb_to_rgb565 r g b := by
  unfold rgb565OfPixel rgb_to_rgb565
  rw [← rgb565_r_eq r (by omega), ← rgb565_g_eq g (by omega)]

theorem rgb_to_rgb565_lt (r g b : ℕ) (hr : r ≤ 255) (hg : g ≤ 255) (hb : b ≤ 255) :
    rgb_to_rgb565 r g b < 2 ^ 16 := by
  unfold rgb_to_rgb565
  exact Nat.bitwise_lt (Nat.bitwise_lt (rgb565_r_lt r (by omega)) (rgb565_g_lt g (by omega)))
    (rgb565_b_lt b (by omega))

theorem u16be_eq_of_lt (v : ℕ) (hv : v < 2 ^ 16) : u16be v = [v / 256, v % 256] := by
  unfold u16be
  rw [Nat.mod_eq_of_lt (by omega : v / 256 < 256)]

theorem flatMap_range_congr {α : Type} (n : ℕ) (f g : ℕ → List α)
    (h : ∀ i < n, f i = g i) :
    (List.range n).flatMap f = (List.range n).flatMap g := by
  induction n with
  | zero => rfl
  | succ m ih =>
    rw [List.range_succ, List.flatMap_append, List.flatMap_append,
      ih fun i hi => h i (by omega)]
    simp only [List.flatMap_cons, List.flatMap_nil, h m (by omega)]

theorem length_flatMap_const {α : Type} (n k : ℕ) (f : ℕ → List α)
    (hf : ∀ i, (f i).length = k) :
    ((List.range n).flatMap f).length = n * k := by
  induction n with
  | zero => simp
  | succ m ih =>
    rw [List.range_succ, List.flatMap_append, List.length_append, ih]
    simp only [List.flatMap_cons, List.flatMap_nil, List.append_nil, hf m]
    ring

theorem rgb565Bytes_length (w h : ℕ) (pix : ℕ → ℕ → ℕ × ℕ × ℕ) :
    (rgb565Bytes w h pix).length = w * h * 2 := by
  unfold rgb565Bytes
  rw [length_flatMap_const h (w * 2) _ fun y =>
    length_flatMap_const w 2 _ fun x => by simp [u16be]]
  ring

/-- C3: every packet built for transmission is a 12-byte header holding
`x, y, w, h` as big-endian unsigned 16-bit and `data_len` as big-endian
unsigned 32-bit, followed by exactly `data_len = w·h·2` payload bytes: the
chunk pixels in row-major order, each packed to 16 bits as
`((r & 0xF8) << 8) | ((g & 0xFC) << 3) | (b >> 3)` and serialised
most-significant byte first. -/
theorem C3_packet_format (x y w h : ℕ) (pix : ℕ → ℕ → ℕ × ℕ × ℕ)
    (hx : x < 2 ^ 16) (hy : y < 2 ^ 16) (hw : w < 2 ^ 16) (hh : h < 2 ^ 16)
    (hlen : w * h * 2 < 2 ^ 32)
    (hpix : ∀ j < h, ∀ i < w,
      (pix j i).1 ≤ 255 ∧ (pix j i).2.1 ≤ 255 ∧ (pix j i).2.2 ≤ 255) :
    (rgb565Bytes w h pix).length = w * h * 2 ∧
    packUpdatePacket x y w h (rgb565Bytes w h pix) =
      (u16be x ++ u16be y ++ u16be w ++ u16be h ++ u32be (w * h * 2)) ++
        rgb565Bytes w h pix ∧
    (u16be x ++ u16be y ++ u16be w ++ u16be h ++ u32be (w * h * 2)).length = 12 ∧
    u16be x = [x / 256, x % 256] ∧ u16be y = [y / 256, y % 256] ∧
    u16be w = [w / 256, w % 256] ∧ u16be h = [h / 256, h % 256] ∧
    u32be (w * h * 2) = [w * h * 2 / 2 ^ 24, w * h * 2 / 2 ^ 16 % 256,
      w * h * 2 / 2 ^ 8 % 256, w * h * 2 % 256] ∧
    rgb565Bytes w h pix =
      ((List.range h).flatMap fun j => (List.range w).flatMap fun i =>
        [rgb_to_rgb565 (pix j i).1 (pix j i).2.1 (pix j i).2.2 / 256,
         rgb_to_rgb565 (pix j i).1 (pix j i).2.1 (pix j i).2.2 % 256]) := by
  refine ⟨rgb565Bytes_length w h pix, ?_, ?_, ?_, ?_, ?_, ?_, ?_, ?_⟩
  · unfold packUpdatePacket
    rw [rgb565Bytes_length w h pix]
  · simp [u16be, u32be]
  · exact u16be_eq_of_lt x hx
  · exact u16be_eq_of_lt y hy
  · exact u16be_eq_of_lt w hw
  · exact u16be_eq_of_lt h hh
  · unfold u32be
    rw [Nat.mod_eq_of_lt (by omega : w * h * 2 / 2 ^ 24 < 256)]
  · unfold rgb565Bytes
    apply flatMap_range_congr
    intro j hj
    apply flatMap_range_congr
    intro i hi
    obtain ⟨hr, hg, hb⟩ := hpix j hj i hi
    rw [rgb565OfPixel_eq _ _ _ hr hg,
      u16be_eq_of_lt _ (rgb_to_rgb565_lt _ _ _ hr hg hb)]

/-- C3 witness: the packet theorem instantiated at a concrete 2×1 pure-red
chunk at `(x, y) = (1, 2)`. -/
theorem C3_packet_format_witness :
    (1 < 2 ^ 16 ∧ 2 < 2 ^ 16 ∧ 2 * 1 * 2 < 2 ^ 32 ∧
      (∀ j < 1, ∀ i < 2,
        ((fun (_ _ : ℕ) => ((255, 0, 0) : ℕ × ℕ × ℕ)) j i).1 ≤ 255 ∧
        ((fun (_ _ : ℕ) => ((255, 0, 0) : ℕ × ℕ × ℕ)) j i).2.1 ≤ 255 ∧
        ((fun (_ _ : ℕ) => ((255, 0, 0) : ℕ × ℕ × ℕ)) j i).2.2 ≤ 255)) ∧
    ((rgb565Bytes 2 1 fun _ _ => (255, 0, 0)).length = 2 * 1 * 2 ∧
    packUpdatePacket 1 2 2 1 (rgb565Bytes 2 1 fun _ _ => (255, 0, 0)) =
      (u16be 1 ++ u16be 2 ++ u16be 2 ++ u16be 1 ++ u32be (2 * 1 * 2)) ++
        rgb565Bytes 2 1 (fun _ _ => (255, 0, 0)) ∧
    (u16be 1 ++ u16be 2 ++ u16be 2 ++ u16be 1 ++ u32be (2 * 1 * 2)).length = 12 ∧
    u16be 1 = [1 / 256, 1 % 256] ∧ u16be 2 = [2 / 256, 2 % 256] ∧
    u16be 2 = [2 / 256, 2 % 256] ∧ u16be 1 = [1 / 256, 1 % 256] ∧
    u32be (2 * 1 * 2) = [2 * 1 * 2 / 2 ^ 24, 2 * 1 * 2 / 2 ^ 16 % 256,
      2 * 1 * 2 / 2 ^ 8 % 256, 2 * 1 * 2 % 256] ∧
    rgb565Bytes 2 1 (fun _ _ => (255, 0, 0)) =
      ((List.range 1).flatMap fun j => (List.range 2).flatMap fun i =>
        [rgb_to_rgb565 ((fun (_ _ : ℕ) => ((255, 0, 0) : ℕ × ℕ × ℕ)) j i).1
            ((fun (_ _ : ℕ) => ((255, 0, 0) : ℕ × ℕ × ℕ)) j i).2.1
            ((fun (_ _ : ℕ) => ((255, 0, 0) : ℕ × ℕ × ℕ)) j i).2.2 / 256,
         rgb_to_rgb565 ((fun (_ _ : ℕ) => ((255, 0, 0) : ℕ × ℕ × ℕ)) j i).1
            ((fun (_ _ : ℕ) => ((255, 0, 0) : ℕ × ℕ × ℕ)) j i).2.1
            ((fun (_ _ : ℕ) => ((255, 0, 0) : ℕ × ℕ × ℕ)) j i).2.2 % 256])) :=
  ⟨⟨by decide, by decide, by decide, by decide⟩,
    C3_packet_format 1 2 2 1 (fun _ _ => (255, 0, 0)) (by decide) (by decide) (by decide)
      (by decide) (by decide) (by decide)⟩

/-- C8 counterexample: at `gamma = 1`, `s = 1/2`, `c = 3` the code truncates
`clip(255·((c/255)^gamma·s), 0, 255) = 3/2` to 1 via `astype(np.uint8)`,
while the round-to-nearest of the claim gives 2. -/
theorem C8_color_rounding_counterexample :
    applyGammaWBChannel 1 (1 / 2) 3 = 1 ∧
    specColorChannel 1 (1 / 2) 3 = 2 ∧
    applyGammaWBChannel 1 (1 / 2) 3 ≠ specColorChannel 1 (1 / 2) 3 := by
  have e1 : ((((3 : ℕ) : ℝ)) / 255) ^ (1 : ℝ) * (1 / 2) * 255 = 3 / 2 := by
    rw [Real.rpow_one]
    push_cast
    ring
  have e2 : 255 * (((((3 : ℕ) : ℝ)) / 255) ^ (1 : ℝ) * (1 / 2)) = 3 / 2 := by
    rw [Real.rpow_one]
    push_cast
    ring
  have h1 : applyGammaWBChannel 1 (1 / 2) 3 = 1 := by
    unfold applyGammaWBChannel
    rw [e1, max_eq_right (by norm_num : (0 : ℝ) ≤ 3 / 2),
      min_eq_right (by norm_num : (3 / 2 : ℝ) ≤ 255)]
    norm_num
  have h2 : specColorChannel 1 (1 / 2) 3 = 2 := by
    unfold specColorChannel
    rw [e2, max_eq_right (by norm_num : (0 : ℝ) ≤ 3 / 2),
      min_eq_right (by norm_num : (3 / 2 : ℝ) ≤ 255)]
    rw [round_eq]
    norm_num
  exact ⟨h1, h2, by rw [h1, h2]; decide⟩

/-- C8 amended: the colour-corrected output channel equals the floor
(truncation toward zero, the `astype(np.uint8)` semantics) of
`clip(255·((c/255)^gamma·s), 0, 255)` — not the round-to-nearest. -/
theorem C8_color_floor_amended (gamma s : ℝ) (c : ℕ) :
    applyGammaWBChannel gamma s c =
      ⌊min (255 : ℝ) (max 0 (255 * (((c : ℝ) / 255) ^ gamma * s)))⌋ := by
  unfold applyGammaWBChannel
  rw [mul_comm (((c : ℝ) / 255) ^ gamma * s) 255]

theorem setPix_self (buf : DitherBuf) (y x : ℕ) (v : ℚ × ℚ × ℚ) :
    setPix buf y x v y x = v := by
  unfold setPix
  rw [if_pos ⟨rfl, rfl⟩]

theorem ditherStep_self (W H : ℕ) (buf : DitherBuf) (p : ℕ × ℕ) :
    ditherStep W H buf p p.1 p.2 = quantPixel (buf p.1 p.2) := by
  have h2 : ¬(p.1 = p.1 ∧ p.2 = p.2 + 1) := by omega
  have h3 : ¬(p.1 = p.1 + 1 ∧ p.2 = p.2 - 1) := by omega
  have h4 : ¬(p.1 = p.1 + 1 ∧ p.2 = p.2) := by omega
  have h5 : ¬(p.1 = p.1 + 1 ∧ p.2 = p.2 + 1) := by omega
  unfold ditherStep
  split_ifs <;> simp [addPix, setPix, h2, h3, h4, h5]

theorem ditherStep_early (W H : ℕ) (buf : DitherBuf) (p : ℕ × ℕ) (j i : ℕ)
    (hlt : j < p.1 ∨ (j = p.1 ∧ i < p.2)) :
    ditherStep W H buf p j i = buf j i := by
  have h1 : ¬(j = p.1 ∧ i = p.2) := by omega
  have h2 : ¬(j = p.1 ∧ i = p.2 + 1) := by omega
  have h3 : ¬(j = p.1 + 1 ∧ i = p.2 - 1) := by omega
  have h4 : ¬(j = p.1 + 1 ∧ i = p.2) := by omega
  have h5 : ¬(j = p.1 + 1 ∧ i = p.2 + 1) := by omega
  unfold ditherStep
  split_ifs <;> simp [addPix, setPix, h1, h2, h3, h4, h5]

theorem foldl_ditherStep_early (W H : ℕ) (L : List (ℕ × ℕ)) (buf : DitherBuf) (j i : ℕ)
    (hall : ∀ p ∈ L, j < p.1 ∨ (j = p.1 ∧ i < p.2)) :
    L.foldl (ditherStep W H) buf j i = buf j i := by
  induction L generalizing buf with
  | nil => rfl
  | cons a L' ih =>
    rw [List.foldl_cons,
      ih (ditherStep W H buf a) fun p hp => hall p (List.mem_cons_of_mem a hp)]
    exact ditherStep_early W H buf a j i (hall a (List.mem_cons_self a L'))

theorem rmBefore_self_false (p : ℕ × ℕ) : rmBefore p p = false := by
  simp [rmBefore]

theorem foldl_dither_visit (W H : ℕ) :
    ∀ L : List (ℕ × ℕ), L.Pairwise (fun q p => rmBefore q p = true) →
      ∀ (buf : DitherBuf) (p : ℕ × ℕ), p ∈ L →
        L.foldl (ditherStep W H) buf p.1 p.2 =
          quantPixel ((L.takeWhile fun q => rmBefore q p).foldl (ditherStep W H) buf p.1 p.2) := by
  intro L
  induction L with
  | nil => intro _ buf p hp; cases hp
  | cons a L' ih =>
    intro hs buf p hp
    have hsa : ∀ b ∈ L', rmBefore a b = true := (List.pairwise_cons.1 hs).1
    have hsL : L'.Pairwise (fun q p => rmBefore q p = true) := (List.pairwise_cons.1 hs).2
    rcases List.mem_cons.1 hp with rfl | hpL
    · rw [List.foldl_cons,
        foldl_ditherStep_early W H L' (ditherStep W H buf p) p.1 p.2
          (fun q hq => by simpa [rmBefore] using hsa q hq),
        ditherStep_self]
      rw [List.takeWhile_cons, rmBefore_self_false]
      rfl
    · rw [List.foldl_cons, ih hsL (ditherStep W H buf a) p hpL]
      rw [List.takeWhile_cons, hsa p hpL]
      rw [if_pos rfl, List.foldl_cons]

theorem mem_rmPositions (W H : ℕ) (p : ℕ × ℕ) :
    p ∈ rmPositions W H ↔ p.1 < H ∧ p.2 < W := by
  obtain ⟨y, x⟩ := p
  unfold rmPositions
  simp only [List.mem_flatMap, List.mem_map, List.mem_range, Prod.mk.injEq]
  constructor
  · rintro ⟨y', hy', x', hx', hyy, hxx⟩
    subst hyy; subst hxx
    exact ⟨hy', hx'⟩
  · rintro ⟨hy, hx⟩
    exact ⟨y, hy, x, hx, rfl, rfl⟩

theorem rmPositions_sorted (W H : ℕ) :
    (rmPositions W H).Pairwise (fun q p => rmBefore q p = true) := by
  induction H with
  | zero => simp [rmPositions]
  | succ m ih =>
    unfold rmPositions
    rw [List.range_succ, List.flatMap_append, List.pairwise_append]
    refine ⟨ih, ?_, ?_⟩
    · simp only [List.flatMap_cons, List.flatMap_nil, List.append_nil]
      rw [List.pairwise_map]
      apply List.Pairwise.imp ?_ (List.pairwise_lt_range W)
      intro a b hab
      simp [rmBefore, hab]
    · intro a ha b hb
      have haa : a.1 < m := by
        rw [show (List.range m).flatMap (fun y => (List.range W).map fun x => (y, x)) =
          rmPositions W m from rfl] at ha
        exact ((mem_rmPositions W m a).1 ha).1
      have hbb : b.1 = m := by
        simp only [List.flatMap_cons, List.flatMap_nil, List.append_nil, List.mem_map,
          List.mem_range] at hb
        obtain ⟨x', _, hbe⟩ := hb
        rw [← hbe]
      simp [rmBefore]
      omega

/-- C10: the Floyd–Steinberg body adds quantization error only to positions
strictly later in row-major order — so no pixel is modified after it has been
quantized — and the final buffer value of every pixel equals the clamped
quantization `clamp(round(c/step)·step, 0, 255)` of its accumulated value at
visit time, with step 8 for the R and B channels and 4 for G. -/
theorem C10_dither_order (W H : ℕ) (buf : DitherBuf) (y x : ℕ)
    (hy : y < H) (hx : x < W) :
    (∀ (b : DitherBuf) (p : ℕ × ℕ) (j i : ℕ),
      (j < p.1 ∨ (j = p.1 ∧ i < p.2)) → ditherStep W H b p j i = b j i) ∧
    (∀ c : ℚ × ℚ × ℚ,
      quantPixel c = (quantChannel 8 c.1, quantChannel 4 c.2.1, quantChannel 8 c.2.2)) ∧
    (∀ (step c : ℚ), quantChannel step c = clampQ ((roundHalfEven (c / step) : ℤ) * step)) ∧
    ditherRun W H buf y x = quantPixel (visitBuf W H buf y x y x) := by
  refine ⟨fun b p j i h => ditherStep_early W H b p j i h, fun c => rfl, fun st c => rfl, ?_⟩
  unfold ditherRun visitBuf
  exact foldl_dither_visit W H (rmPositions W H) (rmPositions_sorted W H) buf (y, x)
    ((mem_rmPositions W H (y, x)).2 ⟨hy, hx⟩)

/-- C10 witness: the dithering theorem instantiated on a concrete 2×2 buffer
at position `(1, 1)`. -/
theorem C10_dither_order_witness :
    (1 < 2 ∧ 1 < 2) ∧
    ((∀ (b : DitherBuf) (p : ℕ × ℕ) (j i : ℕ),
      (j < p.1 ∨ (j = p.1 ∧ i < p.2)) → ditherStep 2 2 b p j i = b j i) ∧
    (∀ c : ℚ × ℚ × ℚ,
      quantPixel c = (quantChannel 8 c.1, quantChannel 4 c.2.1, quantChannel 8 c.2.2)) ∧
    (∀ (step c : ℚ), quantChannel step c = clampQ ((roundHalfEven (c / step) : ℤ) * step)) ∧
    ditherRun 2 2 (fun _ _ => (100, 50, 25)) 1 1 =
      quantPixel (visitBuf 2 2 (fun _ _ => (100, 50, 25)) 1 1 1 1)) :=
  ⟨⟨by decide, by decide⟩,
    C10_dither_order 2 2 (fun _ _ => (100, 50, 25)) 1 1 (by decide) (by decide)⟩
